import Mathlib

/-
Verification of the quantum-computer-emulator repository
(src/math-extensions.ts and the unnamed quantum-emulator module).

Shallow embedding conventions:
* JavaScript floating-point numbers are modelled as elements of a linear
  ordered field α; the intended instantiation is the real numbers ℝ
  (claim theorems are stated at α = ℝ).  Exact field arithmetic stands in
  for IEEE doubles.
* JavaScript arrays are modelled as Lean lists.  An in-bounds read
  a[i] is modelled as List.getD with the element type's zero/[] default;
  all reads performed by the embedded code paths are in bounds for
  well-formed (rectangular) matrices, which is the data-model invariant
  of the spec.
* `throw new Error('Matrix and vector dimensions do not match')` is
  modelled as Except.error MathError.DimensionMismatch; code that may
  throw returns Except.  When a JS method throws, the receiving object
  is left unmodified (the throw happens before any field assignment in
  every relevant method), which the Except embedding reflects by simply
  not producing a new value.
* Math.random() draws are passed in explicitly as a stream
  draws : ℕ → α together with a cursor index, consumed one value per
  QuantumState.measure call.
* JS `1 << n` is modelled as 2^n (exact for the small qubit counts the
  simulator is meant for; JS's 32-bit shift semantics are out of scope),
  and Math.log2 of a power of two is modelled as Nat.log2.
* JS strings (the measurement bitstrings) are modelled as Lean Strings.
-/

set_option maxRecDepth 8000

namespace QEmu

variable {α : Type} [LinearOrderedField α]

/-- Complex number with real and imaginary parts, from the Complex class of
src/math-extensions.ts. -/
@[ext]
structure Complex (α : Type) where
  real : α
  imag : α

/-- Complex.add from src/math-extensions.ts. -/
def Complex.add (a other : Complex α) : Complex α :=
  ⟨a.real + other.real, a.imag + other.imag⟩

/-- Complex.multiply from src/math-extensions.ts. -/
def Complex.multiply (a other : Complex α) : Complex α :=
  ⟨a.real * other.real - a.imag * other.imag,
   a.real * other.imag + a.imag * other.real⟩

/-- Complex.conjugate from src/math-extensions.ts. -/
def Complex.conjugate (a : Complex α) : Complex α := ⟨a.real, -a.imag⟩

/-- Complex.magnitudeSquared from src/math-extensions.ts. -/
def Complex.magnitudeSquared (a : Complex α) : α :=
  a.real * a.real + a.imag * a.imag

/-- Complex.clone from src/math-extensions.ts. -/
def Complex.clone (a : Complex α) : Complex α := ⟨a.real, a.imag⟩

/-- The literal new Complex(0, 0). -/
def Complex.zero : Complex α := ⟨0, 0⟩

/-- The literal new Complex(1, 0). -/
def Complex.one : Complex α := ⟨1, 0⟩

instance : Zero (Complex α) := ⟨Complex.zero⟩

instance : Add (Complex α) := ⟨Complex.add⟩

/-- The error thrown by Matrix.multiplyVector when dimensions mismatch
('Matrix and vector dimensions do not match'). -/
inductive MathError where
  | DimensionMismatch

/-- Dense complex matrix, from the Matrix class of src/math-extensions.ts
(a 2-D array of Complex). -/
@[ext]
structure Matrix (α : Type) where
  data : List (List (Complex α))

/-- The rows component of Matrix.getDimensions: this.data.length. -/
def Matrix.rows (M : Matrix α) : ℕ := M.data.length

/-- The cols component of Matrix.getDimensions:
rows > 0 ? this.data[0].length : 0. -/
def Matrix.cols (M : Matrix α) : ℕ :=
  match M.data with
  | [] => 0
  | r :: _ => r.length

/-- An element read this.data[i][j]; all reads done by the embedded code
are in bounds for rectangular matrices. -/
def Matrix.entry (M : Matrix α) (i j : ℕ) : Complex α :=
  (M.data.getD i []).getD j Complex.zero

/-- The spec's data-model invariant for Matrix: all rows have equal length
(a rectangular rows × cols array).  JS code reading a ragged matrix with
data[i][j]! would hit undefined, which the total getD embedding cannot
represent, so claims about multiplyVector assume this invariant. -/
def Matrix.wellFormed (M : Matrix α) : Prop :=
  ∀ row ∈ M.data, row.length = M.cols

/-- Matrix.identity(size) from src/math-extensions.ts: 1 on the diagonal,
0 elsewhere, built row by row. -/
def Matrix.identity (size : ℕ) : Matrix α :=
  ⟨(List.range size).map fun i =>
    (List.range size).map fun j =>
      if i = j then Complex.one else Complex.zero⟩

/-- Matrix.multiplyVector from src/math-extensions.ts: throws
DimensionMismatch when vector.length !== cols, otherwise returns the
vector whose i-th entry accumulates data[i][j] * vector[j] for
j = 0 .. cols-1 starting from new Complex(0, 0). -/
def Matrix.multiplyVector (M : Matrix α) (vector : List (Complex α)) :
    Except MathError (List (Complex α)) :=
  if vector.length ≠ M.cols then Except.error MathError.DimensionMismatch
  else Except.ok ((List.range M.rows).map fun i =>
    (List.range M.cols).foldl
      (fun acc j => acc.add ((M.entry i j).multiply (vector.getD j Complex.zero)))
      Complex.zero)

/-- Matrix.tensorProduct from src/math-extensions.ts.  The source fills a
(r1*r2) × (c1*c2) zero matrix, writing A[i][j] * B[k][l] into cell
(i*r2+k, j*c2+l) for every i<r1, j<c1, k<r2, l<c2; since (i,k) ↦ i*r2+k
and (j,l) ↦ j*c2+l enumerate every cell exactly once, the filled matrix
is the one whose (row, col) cell is
A[row/r2][col/c2] * B[row%r2][col%c2], which is how it is written here. -/
def Matrix.tensorProduct (M other : Matrix α) : Matrix α :=
  ⟨(List.range (M.rows * other.rows)).map fun row =>
    (List.range (M.cols * other.cols)).map fun col =>
      (M.entry (row / other.rows) (col / other.cols)).multiply
        (other.entry (row % other.rows) (col % other.cols))⟩

/-- Quantum state: the amplitudes array of the QuantumState class. -/
structure QuantumState (α : Type) where
  amplitudes : List (Complex α)

/-- The QuantumState constructor: an array of `size` copies of
new Complex(0, 0) with index 0 then set to new Complex(1, 0).
(For size = 0 the JS assignment would grow the array; the simulator only
ever constructs sizes 2^n ≥ 1, where set matches JS exactly.) -/
def QuantumState.init (size : ℕ) : QuantumState α :=
  ⟨(List.replicate size Complex.zero).set 0 Complex.one⟩

/-- QuantumState.getProbability: amplitudes[index].magnitudeSquared(). -/
def QuantumState.getProbability (s : QuantumState α) (index : ℕ) : α :=
  (s.amplitudes.getD index Complex.zero).magnitudeSquared

/-- QuantumState.applyGate: replaces the amplitudes with
matrix.multiplyVector(amplitudes); the throw from multiplyVector
propagates (and leaves the state unchanged). -/
def QuantumState.applyGate (s : QuantumState α) (matrix : Matrix α) :
    Except MathError (QuantumState α) :=
  (matrix.multiplyVector s.amplitudes).map fun amps => ⟨amps⟩

/-- The cumulative-probability scan loop inside QuantumState.measure:
walks the probabilities in index order accumulating
cumulative += probabilities[i] and returns the first index at which
random <= cumulative holds, or none when the loop finishes. -/
def measureScan (r : α) : List α → ℕ → α → Option ℕ
  | [], _, _ => none
  | p :: rest, i, cumulative =>
    let c := cumulative + p
    if r ≤ c then some i else measureScan r rest (i + 1) c

/-- QuantumState.measure with the Math.random() draw passed in as r.
On the in-loop return path the state collapses to the basis vector at
the measured index; on the fallback path (scan finds no index) the
method returns 0 leaving the amplitudes untouched. -/
def QuantumState.measure (s : QuantumState α) (r : α) : ℕ × QuantumState α :=
  match measureScan r (s.amplitudes.map Complex.magnitudeSquared) 0 0 with
  | some i => (i, ⟨(List.replicate s.amplitudes.length Complex.zero).set i Complex.one⟩)
  | none => (0, s)

/-- QuantumState.getQubitCount: Math.log2(amplitudes.length), exact on the
power-of-two lengths the simulator produces. -/
def QuantumState.getQubitCount (s : QuantumState α) : ℕ :=
  Nat.log2 s.amplitudes.length

/-- QuantumState.clone: a deep copy of the amplitude vector. -/
def QuantumState.clone (s : QuantumState α) : QuantumState α :=
  ⟨s.amplitudes.map Complex.clone⟩

/-- Quantum register: qubitCount plus the owned QuantumState. -/
structure QuantumRegister (α : Type) where
  qubitCount : ℕ
  state : QuantumState α

/-- The QuantumRegister constructor: a fresh state of size 1 << qubitCount. -/
def QuantumRegister.make (qubitCount : ℕ) : QuantumRegister α :=
  ⟨qubitCount, QuantumState.init (2 ^ qubitCount)⟩

/-- QuantumRegister.expandSingleQubitGate: starts from Matrix.identity(2)
and, for i = 0 .. qubitCount-1, tensors on the right either the supplied
gate (when i = qubitIndex) or a 2×2 identity. -/
def QuantumRegister.expandSingleQubitGate (qubitCount : ℕ) (gate : Matrix α)
    (qubitIndex : ℕ) : Matrix α :=
  (List.range qubitCount).foldl
    (fun result i =>
      if i = qubitIndex then result.tensorProduct gate
      else result.tensorProduct (Matrix.identity 2))
    (Matrix.identity 2)

/-- QuantumRegister.applySingleQubitGate: expands the gate to the full
operator and applies it to the live state. -/
def QuantumRegister.applySingleQubitGate (reg : QuantumRegister α)
    (gate : Matrix α) (qubitIndex : ℕ) : Except MathError (QuantumRegister α) :=
  (reg.state.applyGate
    (QuantumRegister.expandSingleQubitGate reg.qubitCount gate qubitIndex)).map
    fun st => ⟨reg.qubitCount, st⟩

/-- The inner j-loop of QuantumRegister.createCNOT swaps every entry of
rows i and flipped through a temp variable, i.e. it swaps the two rows. -/
def swapRows (data : List (List (Complex α))) (i j : ℕ) :
    List (List (Complex α)) :=
  (data.set i (data.getD j [])).set j (data.getD i [])

/-- QuantumRegister.createCNOT: starts from the 2^qubitCount identity and,
for every basis index i whose control bit is 1, swaps rows i and
i XOR (1 << target) when they differ. -/
def QuantumRegister.createCNOT (qubitCount control target : ℕ) : Matrix α :=
  ⟨(List.range (2 ^ qubitCount)).foldl
    (fun m i =>
      if (i >>> control) &&& 1 = 1 then
        if i = i ^^^ (1 <<< target) then m
        else swapRows m i (i ^^^ (1 <<< target))
      else m)
    (Matrix.identity (α := α) (2 ^ qubitCount)).data⟩

/-- QuantumRegister.applyCNOT: builds the CNOT matrix for the register size
and applies it to the live state. -/
def QuantumRegister.applyCNOT (reg : QuantumRegister α)
    (controlQubit targetQubit : ℕ) : Except MathError (QuantumRegister α) :=
  (reg.state.applyGate
    (QuantumRegister.createCNOT reg.qubitCount controlQubit targetQubit)).map
    fun st => ⟨reg.qubitCount, st⟩

/-- QuantumRegister.measureQubit: measures the whole register and extracts
the requested bit (result >> qubitIndex) & 1 of the joint outcome. -/
def QuantumRegister.measureQubit (reg : QuantumRegister α) (r : α)
    (qubitIndex : ℕ) : ℕ × QuantumRegister α :=
  let p := reg.state.measure r
  ((p.1 >>> qubitIndex) &&& 1, ⟨reg.qubitCount, p.2⟩)

/-- QuantumRegister.getState: a deep-copy snapshot of the live state. -/
def QuantumRegister.getState (reg : QuantumRegister α) : QuantumState α :=
  reg.state.clone

/-- QuantumRegister.reset: replaces the live state with a fresh
QuantumState(1 << qubitCount). -/
def QuantumRegister.reset (reg : QuantumRegister α) : QuantumRegister α :=
  ⟨reg.qubitCount, QuantumState.init (2 ^ reg.qubitCount)⟩

/-- QuantumGates.X (Pauli-X). -/
def QuantumGates.X : Matrix α :=
  ⟨[[⟨0, 0⟩, ⟨1, 0⟩],
    [⟨1, 0⟩, ⟨0, 0⟩]]⟩

/-- QuantumGates.H with the numeric constant val = 1 / Math.sqrt(2) passed
as a parameter: the source stores the double approximation of an
irrational number, which has no computable counterpart in the field α,
so the matrix shape is embedded with its scalar abstracted.  Every
theorem about H below holds for all values of val, in particular for
1 / √2.  (The remaining library gates Y, Z, S, T, I are fixed 2×2
matrices of the same kind and are not needed by any claim.) -/
def QuantumGates.H (val : α) : Matrix α :=
  ⟨[[⟨val, 0⟩, ⟨val, 0⟩],
    [⟨val, 0⟩, ⟨-val, 0⟩]]⟩

/-- A logged gate: the matrix snapshot plus the qubit indices. -/
structure GateRecord (α : Type) where
  gate : Matrix α
  qubits : List ℕ

/-- Quantum circuit: the owned register plus the gate log. -/
structure QuantumCircuit (α : Type) where
  register : QuantumRegister α
  gates : List (GateRecord α)

/-- The QuantumCircuit constructor: a fresh register, empty log. -/
def QuantumCircuit.make (qubitCount : ℕ) : QuantumCircuit α :=
  ⟨QuantumRegister.make qubitCount, []⟩

/-- The fixed 4×4 CNOT matrix pushed into the log by addCNOT. -/
def QuantumCircuit.createCNOTMatrix : Matrix α :=
  ⟨[[Complex.one, Complex.zero, Complex.zero, Complex.zero],
    [Complex.zero, Complex.one, Complex.zero, Complex.zero],
    [Complex.zero, Complex.zero, Complex.zero, Complex.one],
    [Complex.zero, Complex.zero, Complex.one, Complex.zero]]⟩

/-- QuantumCircuit.addHadamard: applies H live first and only then appends
the GateRecord; when the live application throws, the record is never
pushed and the circuit is unchanged. -/
def QuantumCircuit.addHadamard (c : QuantumCircuit α) (val : α)
    (qubitIndex : ℕ) : Except MathError (QuantumCircuit α) :=
  (c.register.applySingleQubitGate (QuantumGates.H val) qubitIndex).map
    fun reg => ⟨reg, c.gates ++ [⟨QuantumGates.H val, [qubitIndex]⟩]⟩

/-- QuantumCircuit.addX: same shape as addHadamard with the Pauli-X gate. -/
def QuantumCircuit.addX (c : QuantumCircuit α) (qubitIndex : ℕ) :
    Except MathError (QuantumCircuit α) :=
  (c.register.applySingleQubitGate QuantumGates.X qubitIndex).map
    fun reg => ⟨reg, c.gates ++ [⟨QuantumGates.X, [qubitIndex]⟩]⟩

/-- QuantumCircuit.addCNOT: applies the CNOT live and appends a record
holding the fixed 4×4 matrix and both indices. -/
def QuantumCircuit.addCNOT (c : QuantumCircuit α)
    (controlQubit targetQubit : ℕ) : Except MathError (QuantumCircuit α) :=
  (c.register.applyCNOT controlQubit targetQubit).map
    fun reg =>
      ⟨reg, c.gates ++ [⟨QuantumCircuit.createCNOTMatrix, [controlQubit, targetQubit]⟩]⟩

/-- QuantumCircuit.reset: resets the register and clears the gate log. -/
def QuantumCircuit.reset (c : QuantumCircuit α) : QuantumCircuit α :=
  ⟨c.register.reset, []⟩

/-- The replay loop inside QuantumCircuit.run: dispatches each record by
qubits.length (1 to applySingleQubitGate, 2 to applyCNOT, anything else
skipped), stopping at the first thrown error. -/
def replayGates : QuantumRegister α → List (GateRecord α) →
    Except MathError (QuantumRegister α)
  | reg, [] => Except.ok reg
  | reg, g :: rest =>
    (if g.qubits.length = 1 then
      reg.applySingleQubitGate g.gate (g.qubits.getD 0 0)
    else if g.qubits.length = 2 then
      reg.applyCNOT (g.qubits.getD 0 0) (g.qubits.getD 1 0)
    else Except.ok reg).bind
      fun reg2 => replayGates reg2 rest

/-- The measurement loop inside QuantumCircuit.run: for
j = qubitIndex .. qubitIndex+count-1 it measures qubit j (consuming one
random draw) and prepends the bit's decimal string to the result. -/
def measureAllQubits : QuantumRegister α → (ℕ → α) → ℕ → ℕ → ℕ → String →
    QuantumRegister α × ℕ × String
  | reg, _, idx, _, 0, s => (reg, idx, s)
  | reg, draws, idx, j, count + 1, s =>
    let bp := reg.measureQubit (draws idx) j
    measureAllQubits bp.2 draws (idx + 1) (j + 1) count (toString bp.1 ++ s)

/-- One iteration of the trial loop inside QuantumCircuit.run: it calls
this.reset() — the circuit-level reset, which clears the gate log —
then iterates the (now current) gate log, then measures every qubit
building the bitstring with qubit 0's bit rightmost. -/
def QuantumCircuit.runTrial (c : QuantumCircuit α) (draws : ℕ → α)
    (idx : ℕ) : Except MathError (QuantumCircuit α × ℕ × String) :=
  let c2 := c.reset
  (replayGates c2.register c2.gates).map fun reg =>
    let p := measureAllQubits reg draws idx 0 reg.getState.getQubitCount ""
    (⟨p.1, c2.gates⟩, p.2.1, p.2.2)

/-- The trial loop of QuantumCircuit.run: runs the trials in order,
tallying each trial's bitstring into the histogram. -/
def runLoop (draws : ℕ → α) : QuantumCircuit α → ℕ → ℕ →
    List (String × ℕ) → Except MathError (List (String × ℕ))
  | _, 0, _, results => Except.ok results
  | c, t + 1, idx, results =>
    (c.runTrial draws idx).bind fun p =>
      runLoop draws p.1 t p.2.1 (bumpKey results p.2.2)
where
  /-- results.set(result, (results.get(result) || 0) + 1) on a JS Map,
  modelled as an insertion-ordered association list. -/
  bumpKey (results : List (String × ℕ)) (key : String) : List (String × ℕ) :=
    if results.any fun p => p.1 == key then
      results.map fun p => if p.1 == key then (p.1, p.2 + 1) else p
    else results ++ [(key, 1)]

/-- QuantumCircuit.run(trials): the histogram of `trials` repetitions. -/
def QuantumCircuit.run (c : QuantumCircuit α) (trials : ℕ) (draws : ℕ → α) :
    Except MathError (List (String × ℕ)) :=
  runLoop draws c trials 0 []

/-- Iterated histogram update, used to describe what the trial loop does
to the histogram accumulator. -/
def repeatBump (key : String) : ℕ → List (String × ℕ) → List (String × ℕ)
  | 0, results => results
  | t + 1, results => repeatBump key t (runLoop.bumpKey results key)

/-- The all-zero bitstring producer: prepending count zeros to s, matching
the string accumulation order of the measurement loop. -/
def zeroPrepend : ℕ → String → String
  | 0, s => s
  | count + 1, s => zeroPrepend count ("0" ++ s)

/-- Modelled from the spec (claim C5): the standard matrix-vector product,
of length rows, whose i-th entry is the sum over j < cols of
M[i][j] * v[j].  This is the comparison definition the code's
multiplyVector is checked against. -/
def mulVecStandard (M : Matrix α) (v : List (Complex α)) : List (Complex α) :=
  (List.range M.rows).map fun i =>
    (((List.range M.cols).map fun j =>
      (M.entry i j).multiply (v.getD j Complex.zero)).sum)

/-- Modelled from the spec (claim C2): the correct controlled-NOT
permutation operator on n qubits, the matrix that maps the basis vector
at index c to the basis vector at index c XOR (1 << target) when the
control bit of c is 1 and fixes it otherwise (so column c has its one at
row cnot(c)). -/
def cnotPermutationSpec (n control target : ℕ) : Matrix α :=
  ⟨(List.range (2 ^ n)).map fun row =>
    (List.range (2 ^ n)).map fun col =>
      if row = (if (col >>> control) &&& 1 = 1 then col ^^^ (1 <<< target) else col)
      then Complex.one else Complex.zero⟩

/-! Helper lemmas about the embedded arithmetic and list accessors. -/

theorem Complex.add_zero' (a : Complex α) : a.add Complex.zero = a := by
  ext <;> simp [Complex.add, Complex.zero]

theorem Complex.zero_add' (a : Complex α) : (Complex.zero : Complex α) + a = a := by
  show Complex.zero.add a = a
  ext <;> simp [Complex.add, Complex.zero]

theorem Complex.add_assoc' (a b c : Complex α) :
    (a.add b).add c = a.add (b.add c) := by
  ext <;> simp [Complex.add] <;> ring

theorem Complex.magnitudeSquared_zero :
    (Complex.zero : Complex α).magnitudeSquared = 0 := by
  simp [Complex.magnitudeSquared, Complex.zero]

theorem Complex.magnitudeSquared_one :
    (Complex.one : Complex α).magnitudeSquared = 1 := by
  simp [Complex.magnitudeSquared, Complex.one]

theorem Complex.zero_multiply (x : Complex α) :
    Complex.zero.multiply x = Complex.zero := by
  ext <;> simp [Complex.multiply, Complex.zero]

theorem Complex.multiply_zero (x : Complex α) :
    x.multiply Complex.zero = Complex.zero := by
  ext <;> simp [Complex.multiply, Complex.zero]

theorem Complex.one_multiply_one :
    (Complex.one : Complex α).multiply Complex.one = Complex.one := by
  ext <;> simp [Complex.multiply, Complex.one]

theorem getD_map_range {β : Type} (m i : ℕ) (f : ℕ → β) (d : β) (h : i < m) :
    ((List.range m).map f).getD i d = f i := by
  simp [List.getD_eq_getElem?_getD, List.getElem?_map, List.getElem?_range, h]

theorem getD_replicate' {β : Type} (n i : ℕ) (a d : β) (h : i < n) :
    (List.replicate n a).getD i d = a := by
  simp [List.getD_eq_getElem?_getD, List.getElem?_replicate, h]

theorem foldl_add_map_sum (l : List ℕ) (f : ℕ → Complex α) (c : Complex α) :
    l.foldl (fun acc j => acc.add (f j)) c = c + (l.map f).sum := by
  induction l generalizing c with
  | nil => exact (Complex.add_zero' c).symm
  | cons a l ih =>
    show l.foldl _ (c.add (f a)) = c + ((f a) :: l.map f).sum
    rw [ih, List.sum_cons]
    exact Complex.add_assoc' c (f a) (l.map f).sum

/-! Matrix dimension lemmas. -/

theorem Matrix.rows_identity (size : ℕ) :
    (Matrix.identity (α := α) size).rows = size := by
  simp [Matrix.identity, Matrix.rows]

theorem Matrix.cols_identity (size : ℕ) :
    (Matrix.identity (α := α) size).cols = size := by
  cases size with
  | zero => rfl
  | succ m =>
    rw [Matrix.identity, List.range_succ_eq_map]
    simp [Matrix.cols]

theorem Matrix.entry_identity (size i j : ℕ) (hi : i < size) (hj : j < size) :
    (Matrix.identity (α := α) size).entry i j
      = if i = j then Complex.one else Complex.zero := by
  rw [Matrix.identity, Matrix.entry]
  simp only
  rw [getD_map_range size i _ [] hi, getD_map_range size j _ Complex.zero hj]

theorem Matrix.rows_tensorProduct (M N : Matrix α) :
    (M.tensorProduct N).rows = M.rows * N.rows := by
  simp [Matrix.tensorProduct, Matrix.rows]

theorem Matrix.cols_tensorProduct (M N : Matrix α) (h : 0 < M.rows * N.rows) :
    (M.tensorProduct N).cols = M.cols * N.cols := by
  obtain ⟨k, hk⟩ : ∃ k, M.rows * N.rows = k + 1 :=
    ⟨M.rows * N.rows - 1, (Nat.succ_pred_eq_of_pos h).symm⟩
  rw [Matrix.tensorProduct, hk, List.range_succ_eq_map]
  simp [Matrix.cols]

/-! Dimensions of the expanded single-qubit operator: the accumulator of
expandSingleQubitGate starts 2×2 and doubles once per loop iteration, so
after n iterations it is 2^(n+1) × 2^(n+1): one factor of 2 more than the
state dimension 2^n. -/

theorem foldl_tensor_dims (G : Matrix α) (q : ℕ) (hr : G.rows = 2)
    (hc : G.cols = 2) :
    ∀ (l : List ℕ) (M : Matrix α) (m : ℕ), 0 < m → M.rows = m → M.cols = m →
      (l.foldl (fun result i =>
          if i = q then result.tensorProduct G
          else result.tensorProduct (Matrix.identity 2)) M).rows
            = m * 2 ^ l.length ∧
      (l.foldl (fun result i =>
          if i = q then result.tensorProduct G
          else result.tensorProduct (Matrix.identity 2)) M).cols
            = m * 2 ^ l.length := by
  intro l
  induction l with
  | nil =>
    intro M m hm h1 h2
    simpa using ⟨h1, h2⟩
  | cons a l ih =>
    intro M m hm h1 h2
    have step : ∀ K : Matrix α, K.rows = 2 → K.cols = 2 →
        (M.tensorProduct K).rows = m * 2 ∧ (M.tensorProduct K).cols = m * 2 := by
      intro K k1 k2
      have hpos : 0 < M.rows * K.rows := by
        rw [h1, k1]; positivity
      constructor
      · rw [Matrix.rows_tensorProduct, h1, k1]
      · rw [Matrix.cols_tensorProduct M K hpos, h2, k2]
    have harith : m * 2 * 2 ^ l.length = m * 2 ^ (a :: l).length := by
      rw [List.length_cons, pow_succ]; ring
    rw [List.foldl_cons]
    by_cases hq : a = q
    · rw [if_pos hq]
      obtain ⟨s1, s2⟩ := step G hr hc
      have := ih (M.tensorProduct G) (m * 2) (by positivity) s1 s2
      rw [harith] at this
      exact this
    · rw [if_neg hq]
      obtain ⟨s1, s2⟩ := step (Matrix.identity 2) (Matrix.rows_identity 2)
        (Matrix.cols_identity 2)
      have := ih (M.tensorProduct (Matrix.identity 2)) (m * 2) (by positivity) s1 s2
      rw [harith] at this
      exact this

theorem cols_expandSingleQubitGate (n : ℕ) (G : Matrix α) (q : ℕ)
    (hr : G.rows = 2) (hc : G.cols = 2) :
    (QuantumRegister.expandSingleQubitGate n G q).cols = 2 ^ (n + 1) := by
  have h := (foldl_tensor_dims G q hr hc (List.range n) (Matrix.identity 2) 2
    (by norm_num) (Matrix.rows_identity 2) (Matrix.cols_identity 2)).2
  rw [QuantumRegister.expandSingleQubitGate, h, List.length_range, pow_succ]
  ring

/-- Central divergence lemma: on any register satisfying the data-model
invariant (state length 2^qubitCount), applying any 2×2 single-qubit gate
raises DimensionMismatch, because the expanded operator has 2^(n+1)
columns while the state vector has 2^n entries. -/
theorem applySingleQubitGate_raises (reg : QuantumRegister α) (G : Matrix α)
    (q : ℕ) (hlen : reg.state.amplitudes.length = 2 ^ reg.qubitCount)
    (hr : G.rows = 2) (hc : G.cols = 2) :
    reg.applySingleQubitGate G q = Except.error MathError.DimensionMismatch := by
  unfold QuantumRegister.applySingleQubitGate QuantumState.applyGate
    Matrix.multiplyVector
  rw [cols_expandSingleQubitGate reg.qubitCount G q hr hc, hlen]
  have hne : (2 : ℕ) ^ reg.qubitCount ≠ 2 ^ (reg.qubitCount + 1) :=
    ne_of_lt (Nat.pow_lt_pow_succ (by norm_num))
  rw [if_pos hne]
  rfl

/-! Measurement on the freshly reset state.  Inside run every trial starts
from |0…0⟩, whose probability list is 1 followed by zeros: the scan either
fires at index 0 (draw ≤ 1) or falls through to the fallback (also outcome
0), and in both cases the state afterwards is again |0…0⟩. -/

theorem measureScan_zeros (r : α) :
    ∀ (k i : ℕ) (c : α), ¬ r ≤ c →
      measureScan r (List.replicate k (0 : α)) i c = none := by
  intro k
  induction k with
  | zero => intro i c _; rfl
  | succ k ih =>
    intro i c h
    rw [List.replicate_succ]
    simp only [measureScan, add_zero]
    rw [if_neg h]
    exact ih (i + 1) c h

theorem init_amplitudes_succ (m : ℕ) :
    (QuantumState.init (α := α) (m + 1)).amplitudes
      = Complex.one :: List.replicate m Complex.zero := by
  simp [QuantumState.init, List.replicate_succ]

theorem init_length (s : ℕ) :
    (QuantumState.init (α := α) s).amplitudes.length = s := by
  simp [QuantumState.init]

theorem measure_init (m : ℕ) (r : α) :
    (QuantumState.init (α := α) (m + 1)).measure r
      = (0, QuantumState.init (m + 1)) := by
  unfold QuantumState.measure
  rw [init_amplitudes_succ, List.map_cons, List.map_replicate,
    Complex.magnitudeSquared_one, Complex.magnitudeSquared_zero]
  by_cases h : r ≤ (0 : α) + 1
  · have hsc : measureScan r ((1 : α) :: List.replicate m 0) 0 0 = some 0 := by
      simp only [measureScan]
      rw [if_pos h]
    rw [hsc]
    simp [QuantumState.init, List.replicate_succ]
  · have hsc : measureScan r ((1 : α) :: List.replicate m 0) 0 0 = none := by
      simp only [measureScan]
      rw [if_neg h]
      exact measureScan_zeros r m 1 (0 + 1) h
    rw [hsc]

theorem measureQubit_init (n j : ℕ) (r : α) :
    (⟨n, QuantumState.init (2 ^ n)⟩ : QuantumRegister α).measureQubit r j
      = (0, ⟨n, QuantumState.init (2 ^ n)⟩) := by
  have hp : 0 < 2 ^ n := pow_pos (by norm_num) n
  obtain ⟨m, hm⟩ : ∃ m, 2 ^ n = m + 1 := ⟨2 ^ n - 1, by omega⟩
  unfold QuantumRegister.measureQubit
  rw [hm]
  simp [measure_init m r]

theorem measureAllQubits_init (n : ℕ) (draws : ℕ → α) :
    ∀ (k j idx : ℕ) (s : String),
      measureAllQubits (⟨n, QuantumState.init (2 ^ n)⟩ : QuantumRegister α)
          draws idx j k s
        = (⟨n, QuantumState.init (2 ^ n)⟩, idx + k, zeroPrepend k s) := by
  intro k
  induction k with
  | zero => intro j idx s; simp [measureAllQubits, zeroPrepend]
  | succ k ih =>
    intro j idx s
    rw [measureAllQubits]
    simp only [measureQubit_init n j (draws idx)]
    rw [ih (j + 1) (idx + 1) (toString 0 ++ s)]
    have hidx : idx + 1 + k = idx + (k + 1) := by omega
    have hstr : (toString 0 ++ s) = "0" ++ s := rfl
    rw [hidx, hstr]
    rfl

theorem runTrial_eq (c : QuantumCircuit α) (draws : ℕ → α) (idx : ℕ) :
    c.runTrial draws idx
      = Except.ok
          (⟨⟨c.register.qubitCount,
              QuantumState.init (2 ^ c.register.qubitCount)⟩, []⟩,
            idx + c.register.qubitCount,
            zeroPrepend c.register.qubitCount "") := by
  unfold QuantumCircuit.runTrial QuantumCircuit.reset QuantumRegister.reset
  have hqc :
      (⟨c.register.qubitCount,
          QuantumState.init (2 ^ c.register.qubitCount)⟩ :
        QuantumRegister α).getState.getQubitCount = c.register.qubitCount := by
    simp [QuantumRegister.getState, QuantumState.clone, QuantumState.getQubitCount,
      QuantumState.init, Nat.log2_two_pow]
  simp only [replayGates, Except.map, hqc]
  rw [measureAllQubits_init c.register.qubitCount draws c.register.qubitCount 0 idx ""]

theorem runLoop_eq (draws : ℕ → α) (n : ℕ) :
    ∀ (t : ℕ) (c : QuantumCircuit α) (idx : ℕ) (results : List (String × ℕ)),
      c.register.qubitCount = n →
      runLoop draws c t idx results
        = Except.ok (repeatBump (zeroPrepend n "") t results) := by
  intro t
  induction t with
  | zero => intro c idx results _; rfl
  | succ t ih =>
    intro c idx results h
    rw [runLoop, runTrial_eq, h]
    simp only [Except.bind]
    exact ih _ _ _ rfl

/-- What QuantumCircuit.run actually computes, for every circuit, trial
count and draw stream: because the per-trial reset clears the gate log,
no gate is ever replayed, every trial measures the fresh |0…0⟩ state to
the all-zero bitstring, and run never raises. -/
theorem run_eq (c : QuantumCircuit α) (trials : ℕ) (draws : ℕ → α) :
    c.run trials draws
      = Except.ok
          (repeatBump (zeroPrepend c.register.qubitCount "") trials []) :=
  runLoop_eq draws c.register.qubitCount trials c 0 [] rfl

theorem bumpKey_nil (key : String) : runLoop.bumpKey [] key = [(key, 1)] := by
  simp [runLoop.bumpKey]

theorem bumpKey_singleton (key : String) (m : ℕ) :
    runLoop.bumpKey [(key, m)] key = [(key, m + 1)] := by
  simp [runLoop.bumpKey]

theorem repeatBump_singleton (key : String) :
    ∀ (t m : ℕ), repeatBump key t [(key, m)] = [(key, m + t)] := by
  intro t
  induction t with
  | zero => intro m; rfl
  | succ t ih =>
    intro m
    rw [repeatBump, bumpKey_singleton, ih (m + 1)]
    have : m + 1 + t = m + (t + 1) := by omega
    rw [this]

theorem repeatBump_nil (key : String) (t : ℕ) :
    repeatBump key t [] = if t = 0 then [] else [(key, t)] := by
  cases t with
  | zero => rfl
  | succ t =>
    rw [repeatBump, bumpKey_nil, repeatBump_singleton key t 1]
    have : 1 + t = t + 1 := by omega
    rw [this]
    simp

theorem zeroPrepend_length :
    ∀ (k : ℕ) (s : String), (zeroPrepend k s).length = k + s.length := by
  intro k
  induction k with
  | zero => intro s; simp [zeroPrepend]
  | succ k ih =>
    intro s
    rw [zeroPrepend, ih ("0" ++ s), String.length_append]
    have : ("0" : String).length = 1 := rfl
    rw [this]
    omega

/-! Claim theorems. -/

/-- Claim C8: for every ComplexNumber a, multiply(a, conjugate(a)).imag = 0
and multiply(a, conjugate(a)).real = magnitudeSquared(a), over the embedded
arithmetic. -/
theorem claim_C8_conjugate_product (a : Complex ℝ) :
    (a.multiply a.conjugate).imag = 0 ∧
      (a.multiply a.conjugate).real = a.magnitudeSquared := by
  constructor
  · show a.real * -a.imag + a.imag * a.real = 0
    ring
  · show a.real * a.real - a.imag * -a.imag = a.real * a.real + a.imag * a.imag
    ring

/-- Claim C9: for all positive a and b,
tensorProduct(identity(a), identity(b)) = identity(a*b) entrywise. -/
theorem claim_C9_tensor_of_identities (a b : ℕ) (_ha : 0 < a) (hb : 0 < b) :
    (Matrix.identity (α := ℝ) a).tensorProduct (Matrix.identity b)
      = Matrix.identity (a * b) := by
  have hra := Matrix.rows_identity (α := ℝ) a
  have hca := Matrix.cols_identity (α := ℝ) a
  have hrb := Matrix.rows_identity (α := ℝ) b
  have hcb := Matrix.cols_identity (α := ℝ) b
  unfold Matrix.tensorProduct
  rw [hra, hca, hrb, hcb]
  apply Matrix.ext
  rw [show (Matrix.identity (α := ℝ) (a * b)).data
      = (List.range (a * b)).map (fun i => (List.range (a * b)).map
        (fun j => if i = j then Complex.one else Complex.zero)) from rfl]
  apply List.map_congr_left
  intro row hrow
  apply List.map_congr_left
  intro col hcol
  rw [List.mem_range] at hrow hcol
  have hdr : row / b < a := (Nat.div_lt_iff_lt_mul hb).2 hrow
  have hdc : col / b < a := (Nat.div_lt_iff_lt_mul hb).2 hcol
  have hmr : row % b < b := Nat.mod_lt _ hb
  have hmc : col % b < b := Nat.mod_lt _ hb
  rw [Matrix.entry_identity a _ _ hdr hdc, Matrix.entry_identity b _ _ hmr hmc]
  by_cases h1 : row / b = col / b
  · by_cases h2 : row % b = col % b
    · have heq : row = col := by
        have hr2 := Nat.div_add_mod row b
        have hc2 := Nat.div_add_mod col b
        rw [h1, h2] at hr2
        omega
      rw [if_pos h1, if_pos h2, if_pos heq, Complex.one_multiply_one]
    · have hne : row ≠ col := fun hcon => h2 (by rw [hcon])
      rw [if_pos h1, if_neg h2, if_neg hne, Complex.multiply_zero]
  · have hne : row ≠ col := fun hcon => h1 (by rw [hcon])
    rw [if_neg h1, if_neg hne, Complex.zero_multiply]

/-- Claim C9 witness: concrete instance at a = 2, b = 3. -/
theorem claim_C9_witness :
    (Matrix.identity (α := ℝ) 2).tensorProduct (Matrix.identity 3)
      = Matrix.identity (2 * 3) :=
  claim_C9_tensor_of_identities 2 3 (by decide) (by decide)

/-- Claim C5: multiplyVector(M, v) raises DimensionMismatch exactly when
len(v) differs from M.cols, and otherwise returns the standard
matrix-vector product of length M.rows without raising.  The matrix is
assumed rectangular (the spec's data-model invariant), since a ragged
matrix would make JS hit undefined entries instead. -/
theorem claim_C5_multiplyVector (M : Matrix ℝ) (v : List (Complex ℝ))
    (_hwf : M.wellFormed) :
    (M.multiplyVector v = Except.error MathError.DimensionMismatch
        ↔ v.length ≠ M.cols) ∧
    (v.length = M.cols →
      M.multiplyVector v = Except.ok (mulVecStandard M v) ∧
        (mulVecStandard M v).length = M.rows) := by
  constructor
  · constructor
    · intro h hne
      rw [Matrix.multiplyVector.eq_def, if_neg (by simp [hne])] at h
      exact absurd h (by simp)
    · intro h
      rw [Matrix.multiplyVector.eq_def, if_pos h]
  · intro h
    constructor
    · rw [Matrix.multiplyVector.eq_def, if_neg (by simp [h])]
      congr 1
      unfold mulVecStandard
      apply List.map_congr_left
      intro i _
      rw [foldl_add_map_sum]
      exact Complex.zero_add' _
    · unfold mulVecStandard
      simp

/-- Claim C5 witness: the Pauli-X matrix applied to the vector (1, 0). -/
theorem claim_C5_witness :
    (QuantumGates.X : Matrix ℝ).multiplyVector [Complex.one, Complex.zero]
        = Except.ok (mulVecStandard (QuantumGates.X : Matrix ℝ)
            [Complex.one, Complex.zero]) ∧
      (mulVecStandard (QuantumGates.X : Matrix ℝ)
          [Complex.one, Complex.zero]).length
        = (QuantumGates.X : Matrix ℝ).rows :=
  (claim_C5_multiplyVector QuantumGates.X [Complex.one, Complex.zero]
    (by unfold Matrix.wellFormed; decide)).2 (by decide)

/-- Claim C10: when the cumulative-probability scan of measure() finds no
index with random <= cumulative, measure returns outcome 0 and leaves the
amplitude vector completely unchanged (no collapse on the fallback path). -/
theorem claim_C10_measure_fallback (s : QuantumState ℝ) (r : ℝ)
    (h : measureScan r (s.amplitudes.map Complex.magnitudeSquared) 0 0 = none) :
    s.measure r = (0, s) := by
  unfold QuantumState.measure
  rw [h]

/-- Claim C10 witness: the all-zero amplitude vector with draw 1 takes the
fallback path and is returned unchanged. -/
theorem claim_C10_witness :
    (⟨[⟨0, 0⟩]⟩ : QuantumState ℝ).measure 1 = (0, ⟨[⟨0, 0⟩]⟩) := by
  apply claim_C10_measure_fallback
  norm_num [measureScan, Complex.magnitudeSquared]

/-- Claim C7: a freshly constructed QuantumState of size 2^n (n ≥ 1) has
getProbability(0) = 1 and getProbability(i) = 0 for 1 ≤ i < 2^n; and for
every register, reset() followed by getState().getProbability(0) gives
exactly 1. -/
theorem claim_C7_fresh_state_and_reset (n : ℕ) (reg : QuantumRegister ℝ)
    (_hn : 1 ≤ n) :
    ((QuantumState.init (α := ℝ) (2 ^ n)).getProbability 0 = 1 ∧
      ∀ i, 1 ≤ i → i < 2 ^ n →
        (QuantumState.init (α := ℝ) (2 ^ n)).getProbability i = 0) ∧
    reg.reset.getState.getProbability 0 = 1 := by
  have key : ∀ m : ℕ,
      (QuantumState.init (α := ℝ) (m + 1)).getProbability 0 = 1 ∧
      ∀ i, 1 ≤ i → i < m + 1 →
        (QuantumState.init (α := ℝ) (m + 1)).getProbability i = 0 := by
    intro m
    constructor
    · rw [QuantumState.getProbability, init_amplitudes_succ]
      simp [Complex.magnitudeSquared_one]
    · intro i h1 h2
      obtain ⟨k, hk⟩ : ∃ k, i = k + 1 := ⟨i - 1, by omega⟩
      rw [QuantumState.getProbability, init_amplitudes_succ, hk,
        List.getD_cons_succ, getD_replicate' m k _ _ (by omega)]
      exact Complex.magnitudeSquared_zero
  constructor
  · obtain ⟨m, hm⟩ : ∃ m, 2 ^ n = m + 1 :=
      ⟨2 ^ n - 1, by have := pow_pos (by norm_num : (0 : ℕ) < 2) n; omega⟩
    rw [hm]
    exact key m
  · obtain ⟨m, hm⟩ : ∃ m, 2 ^ reg.qubitCount = m + 1 :=
      ⟨2 ^ reg.qubitCount - 1,
        by have := pow_pos (by norm_num : (0 : ℕ) < 2) reg.qubitCount; omega⟩
    rw [QuantumRegister.reset, QuantumRegister.getState, hm,
      QuantumState.getProbability, QuantumState.clone, init_amplitudes_succ]
    simp only [List.map_cons, List.getD_cons_zero]
    rw [show Complex.clone (Complex.one : Complex ℝ) = Complex.one from rfl]
    exact Complex.magnitudeSquared_one

/-- Claim C7 witness: the 2-amplitude fresh state and a concrete register. -/
theorem claim_C7_witness :
    (QuantumState.init (α := ℝ) (2 ^ 1)).getProbability 0 = 1 ∧
    (QuantumState.init (α := ℝ) (2 ^ 1)).getProbability 1 = 0 ∧
    (QuantumRegister.make (α := ℝ) 1).reset.getState.getProbability 0 = 1 := by
  have h := claim_C7_fresh_state_and_reset 1 (QuantumRegister.make 1) (by decide)
  exact ⟨h.1.1, h.1.2 1 (by decide) (by decide), h.2⟩

/-- Claim C1: the claim says applySingleQubitGate builds the operator
I₂ ⊗ G₀ ⊗ … ⊗ G_{n-1} and then replaces the register's amplitude vector
with the operator-vector product.  The operator is indeed built with the
leading extra I₂ factor — which makes it 2^(n+1)-dimensional — and as a
consequence the application NEVER happens: multiplyVector raises
DimensionMismatch for every register with state length 2^n, every 2×2
gate and every qubit index, so the amplitude vector is never replaced. -/
theorem claim_C1_applySingleQubitGate_raises (reg : QuantumRegister ℝ)
    (G : Matrix ℝ) (q : ℕ)
    (hlen : reg.state.amplitudes.length = 2 ^ reg.qubitCount)
    (_hn : 1 ≤ reg.qubitCount) (_hq : q < reg.qubitCount)
    (hr : G.rows = 2) (hc : G.cols = 2) :
    (QuantumRegister.expandSingleQubitGate reg.qubitCount G q).cols
        = 2 ^ (reg.qubitCount + 1) ∧
      reg.applySingleQubitGate G q
        = Except.error MathError.DimensionMismatch :=
  ⟨cols_expandSingleQubitGate reg.qubitCount G q hr hc,
    applySingleQubitGate_raises reg G q hlen hr hc⟩

/-- Claim C1 witness: a fresh 1-qubit register with the Pauli-X gate. -/
theorem claim_C1_witness :
    (QuantumRegister.expandSingleQubitGate
        (QuantumRegister.make (α := ℝ) 1).qubitCount
        (QuantumGates.X : Matrix ℝ) 0).cols
      = 2 ^ ((QuantumRegister.make (α := ℝ) 1).qubitCount + 1) ∧
    (QuantumRegister.make (α := ℝ) 1).applySingleQubitGate QuantumGates.X 0
      = Except.error MathError.DimensionMismatch :=
  claim_C1_applySingleQubitGate_raises (QuantumRegister.make 1) QuantumGates.X 0
    (by decide) (by decide) (by decide) (by decide) (by decide)

/-- Claim C2: the claim says the matrix built by createCNOT(control, target)
is the correct controlled-NOT permutation operator.  In fact the row-swap
loop visits both members of every swapped pair (both have the control bit
set), so each swap is undone and createCNOT returns the identity matrix:
at n = 2, control = 0, target = 1 the result equals identity(4) and
differs from the CNOT permutation operator (whose entry (3,1) is 1). -/
theorem claim_C2_createCNOT_is_identity_not_cnot :
    QuantumRegister.createCNOT (α := ℝ) 2 0 1 = Matrix.identity 4 ∧
      QuantumRegister.createCNOT (α := ℝ) 2 0 1 ≠ cnotPermutationSpec 2 0 1 := by
  constructor
  · rfl
  · intro h
    have h2 : (Complex.zero : Complex ℝ) = Complex.one :=
      congrArg (fun M : Matrix ℝ => M.entry 3 1) h
    have h3 : (0 : ℝ) = 1 := congrArg Complex.real h2
    norm_num at h3

/-- Claim C3: the claim says each of the trials iterations of run first
resets the register and then replays every GateRecord present in the log
at call time.  In fact run calls the circuit-level reset, which clears the
gate log itself, so no record is ever replayed: on a 1-qubit circuit whose
log holds a single-qubit Pauli-X record, run(1) succeeds and returns
{"0": 1}, although actually dispatching that record to
applySingleQubitGate — as the claim requires — provably raises
DimensionMismatch. -/
theorem claim_C3_run_replays_nothing :
    (⟨⟨1, QuantumState.init 2⟩, [⟨QuantumGates.X, [0]⟩]⟩ :
        QuantumCircuit ℝ).run 1 (fun _ => 1 / 2)
      = Except.ok [("0", 1)] ∧
    (⟨1, QuantumState.init 2⟩ : QuantumRegister ℝ).applySingleQubitGate
        QuantumGates.X 0 = Except.error MathError.DimensionMismatch := by
  constructor
  · rw [run_eq]
    rfl
  · exact applySingleQubitGate_raises _ QuantumGates.X 0 (by decide)
      (by decide) (by decide)

/-- Claim C4: the Bell scenario (2-qubit circuit, addHadamard(0), then
addCNOT(0,1), run(1000) with keys exactly "00"/"11") cannot occur: its
very first step addHadamard(0) raises DimensionMismatch for every value
of the Hadamard scalar, because the expanded operator is 8×8 while the
state vector has length 4; the circuit is left unchanged. -/
theorem claim_C4_bell_scenario_first_step_raises (val : ℝ) :
    (QuantumCircuit.make (α := ℝ) 2).addHadamard val 0
      = Except.error MathError.DimensionMismatch := by
  unfold QuantumCircuit.addHadamard
  rw [applySingleQubitGate_raises ((QuantumCircuit.make (α := ℝ) 2).register)
    (QuantumGates.H val) 0 rfl rfl rfl]
  rfl

/-- Claim C4 witness: the concrete scenario value val = 1/2 (the failure is
independent of the Hadamard scalar). -/
theorem claim_C4_witness :
    (QuantumCircuit.make (α := ℝ) 2).addHadamard (1 / 2) 0
      = Except.error MathError.DimensionMismatch :=
  claim_C4_bell_scenario_first_step_raises (1 / 2)

/-- Claim C6: for every circuit with qubitCount n ≥ 1 and every trial count,
run returns a histogram whose keys all have length exactly n and whose
counts sum to the trial count.  (Because of the log-clearing reset inside
run, the histogram is in fact always {all-zero bitstring: trials}.) -/
theorem claim_C6_run_histogram_shape (c : QuantumCircuit ℝ) (trials : ℕ)
    (draws : ℕ → ℝ) (_hn : 1 ≤ c.register.qubitCount) :
    ∃ hist, c.run trials draws = Except.ok hist ∧
      (∀ p ∈ hist, p.1.length = c.register.qubitCount) ∧
      (hist.map Prod.snd).sum = trials := by
  refine ⟨_, run_eq c trials draws, ?_, ?_⟩
  · intro p hp
    rw [repeatBump_nil] at hp
    by_cases ht : trials = 0
    · rw [if_pos ht] at hp
      exact absurd hp (List.not_mem_nil p)
    · rw [if_neg ht] at hp
      rw [List.mem_singleton] at hp
      rw [hp]
      have := zeroPrepend_length c.register.qubitCount ""
      simpa using this
  · rw [repeatBump_nil]
    by_cases ht : trials = 0
    · rw [if_pos ht, ht]
      rfl
    · rw [if_neg ht]
      simp

/-- Claim C6 witness: the fresh 1-qubit circuit run for 2 trials. -/
theorem claim_C6_witness :
    ∃ hist, (QuantumCircuit.make (α := ℝ) 1).run 2 (fun _ => 1 / 2)
        = Except.ok hist ∧
      (∀ p ∈ hist,
        p.1.length = (QuantumCircuit.make (α := ℝ) 1).register.qubitCount) ∧
      (hist.map Prod.snd).sum = 2 :=
  claim_C6_run_histogram_shape (QuantumCircuit.make 1) 2 (fun _ => 1 / 2)
    (by decide)

end QEmu
